import Mathlib

/-
  Verification of the user-record REST API (models/User.js,
  controllers/userController.js) against its specification.

  The data model and every operation below are shallow embeddings of the
  JavaScript source: Mongoose documents become a Lean structure, the
  stored collection becomes a list of records, and each handler becomes a
  function from its inputs (and the current collection) to its result.
  JavaScript truthiness of strings (truthy iff nonempty) and of numbers
  (truthy iff nonzero) is spelled out at each use site.
-/

/-- JS String.prototype.toLowerCase, written over the character data so
    that it reduces definitionally (the records hold ASCII text). -/
def toLowerJs (s : String) : String :=
  ⟨s.data.map Char.toLower⟩

/-- JS String.prototype.trim: strip leading and trailing whitespace. -/
def trimJs (s : String) : String :=
  ⟨((s.data.dropWhile Char.isWhitespace).reverse.dropWhile Char.isWhitespace).reverse⟩

/-- A stored User document (models/User.js schema fields relevant to the
    verified behaviour; timestamps carry no verified content and are
    omitted). `age = none` models the null default. -/
structure User where
  name : String
  email : String
  age : Option Int
  hobbies : List String
  isActive : Bool
  profileScore : Int
deriving DecidableEq

/-- The score computed by userSchema.methods.updateProfileScore
    (models/User.js lines 195 to 212).  JS truthiness: `this.name` and
    `this.email` are truthy iff nonempty; `this.age` is truthy iff
    non-null and nonzero, which `u.age.getD 0 ≠ 0` renders exactly. -/
def computeScore (u : User) : Int :=
  (if u.name ≠ "" ∧ 2 ≤ u.name.length then 20 else 0)
  + (if u.email ≠ "" then 30 else 0)
  + (if u.age.getD 0 ≠ 0 then 20 else 0)
  + min (3 * (u.hobbies.length : Int)) 30

/-- userSchema.methods.updateProfileScore: assigns the computed score to
    the document (the nested save it triggers is the persistence step
    modelled by `save` below). -/
def updateProfileScore (u : User) : User :=
  { u with profileScore := computeScore u }

/-- The effect of persisting a document through Mongoose save with the
    pre-save middleware of models/User.js lines 254 to 264: the profile
    score is recomputed and the email is lowercased. -/
def save (u : User) : User :=
  let u1 := updateProfileScore u
  { u1 with email := toLowerJs u1.email }

/-- userSchema.methods.addHobby (models/User.js lines 166 to 173): push
    and save only when the hobby is not already present and fewer than 10
    hobbies are stored; otherwise resolve with the unchanged document. -/
def addHobby (u : User) (h : String) : User :=
  if !(u.hobbies.contains h) && u.hobbies.length < 10 then
    save { u with hobbies := u.hobbies ++ [h] }
  else u

/-- Array.prototype.indexOf: index of the first strict-equality match,
    or -1 when absent. -/
def indexOfJs (l : List String) (h : String) : Int :=
  match l with
  | [] => -1
  | a :: t =>
    if a == h then 0
    else if indexOfJs t h == -1 then -1 else indexOfJs t h + 1

/-- Array.prototype.splice(i, 1): drop the element at position i. -/
def spliceOne (l : List String) (i : Nat) : List String :=
  l.take i ++ l.drop (i + 1)

/-- userSchema.methods.removeHobby (models/User.js lines 181 to 188):
    splice out the first occurrence and save when present; otherwise
    resolve with the unchanged document (no error is signalled, as the
    return type shows). -/
def removeHobby (u : User) (h : String) : User :=
  if indexOfJs u.hobbies h > -1 then
    save { u with hobbies := spliceOne u.hobbies (indexOfJs u.hobbies h).toNat }
  else u

/-- The profile score as the specification words it: 20 for a name of at
    least 2 characters, 30 for an email, 20 for a present (non-null) age,
    and 3 points per hobby capped at 30.  Kept separate from
    `computeScore` so that the two can be compared: they differ only in
    the treatment of a (schema-invalid) age of zero. -/
def claimedScore (u : User) : Int :=
  (if u.name ≠ "" ∧ 2 ≤ u.name.length then 20 else 0)
  + (if u.email ≠ "" then 30 else 0)
  + (if u.age ≠ none then 20 else 0)
  + min (3 * (u.hobbies.length : Int)) 30

/-- Age bounds of the schema (models/User.js lines 69 to 74): absent is
    allowed, a present age must lie in [13, 120]. -/
def validAgeB : Option Int → Bool
  | none => true
  | some a => decide (13 ≤ a) && decide (a ≤ 120)

/-- The scenario record of the specification: Ann Lee with two hobbies. -/
def annUser : User :=
  { name := "Ann Lee", email := "ann@example.com", age := some 25,
    hobbies := ["chess", "reading"], isActive := true, profileScore := 0 }

/-! ## Schema validation (models/User.js lines 16 to 116) -/

/-- Character class of the name validator regex: letters, whitespace,
    hyphen (code 45) and apostrophe (code 39). -/
def nameCharOk (c : Char) : Bool :=
  c.isAlpha || c.isWhitespace || c == Char.ofNat 45 || c == Char.ofNat 39

/-- Name rules: required (implied by the 2-character minimum), length
    between 2 and 100, and every character in the allowed class. -/
def validName (s : String) : Bool :=
  decide (2 ≤ s.length) && decide (s.length ≤ 100) && s.data.all nameCharOk

/-- Local-part character class of the email regex: alphanumeric plus
    dot (46), underscore (95), percent (37), plus (43), hyphen (45). -/
def isLocalChar (c : Char) : Bool :=
  c.isAlphanum || c == Char.ofNat 46 || c == Char.ofNat 95
    || c == Char.ofNat 37 || c == Char.ofNat 43 || c == Char.ofNat 45

/-- Domain character class of the email regex: alphanumeric, dot, hyphen. -/
def isDomainChar (c : Char) : Bool :=
  c.isAlphanum || c == Char.ofNat 46 || c == Char.ofNat 45

/-- Matches the domain tail of the email regex: one or more domain
    characters, a literal dot, then at least two letters. -/
def domainOk (cs : List Char) : Bool :=
  (List.range cs.length).any fun i =>
    decide (1 ≤ i) && (cs.get? i == some (Char.ofNat 46))
      && (cs.take i).all isDomainChar
      && decide (2 ≤ (cs.drop (i + 1)).length) && (cs.drop (i + 1)).all Char.isAlpha

/-- The anchored email format regex of the schema: a nonempty local part,
    an at sign (code 64), then a domain ending in a dot and a TLD of at
    least two letters. -/
def validEmailFormat (s : String) : Bool :=
  let cs := s.data
  let loc := cs.takeWhile fun c => c != Char.ofNat 64
  let rest := cs.drop loc.length
  !loc.isEmpty && loc.all isLocalChar
    && (rest.head? == some (Char.ofNat 64)) && domainOk (rest.drop 1)

/-- The disposable-domain blocklist of the custom email validator. -/
def disposableDomains : List String := ["tempmail.com", "throwaway.com"]

/-- The domain extracted as in the custom validator: split at the at
    sign and take the second piece. -/
def emailDomain (s : String) : String :=
  toLowerJs
    ⟨(s.data.drop ((s.data.takeWhile fun c => c != Char.ofNat 64).length + 1)).takeWhile
      fun c => c != Char.ofNat 64⟩

/-- Full email validation: format regex plus the disposable-domain check. -/
def validEmail (s : String) : Bool :=
  validEmailFormat s && !(disposableDomains.contains (emailDomain s))

/-- Per-entry hobby rules: length between 2 and 50 after trimming. -/
def validHobby (s : String) : Bool :=
  decide (2 ≤ s.length) && decide (s.length ≤ 50)

/-- Whole-document schema validation as Mongoose runs it on save. -/
def validRecord (u : User) : Bool :=
  validName u.name && validEmail u.email && validAgeB u.age
    && u.hobbies.all validHobby && decide (u.hobbies.length ≤ 10)

/-! ## List endpoint: query building and pagination
    (controllers/userController.js getAllUsers, lines 317 to 423) -/

/-- Digits at the head of a character list. -/
def leadingDigits (cs : List Char) : List Char :=
  cs.takeWhile Char.isDigit

/-- Numeric value of a digit list. -/
def digitsVal (cs : List Char) : Int :=
  cs.foldl (fun a c => a * 10 + ((c.toNat : Int) - 48)) 0

/-- JS parseInt on a query-string value: leading whitespace skipped, an
    optional sign, then a maximal run of digits; `none` models NaN (no
    digits to parse). Trailing garbage after the digits is ignored,
    exactly as parseInt ignores it. -/
def parseIntJs (s : String) : Option Int :=
  match (trimJs s).data with
  | [] => none
  | c :: rest =>
    if c == Char.ofNat 45 then
      let ds := leadingDigits rest
      if ds.isEmpty then none else some (-(digitsVal ds))
    else if c == Char.ofNat 43 then
      let ds := leadingDigits rest
      if ds.isEmpty then none else some (digitsVal ds)
    else
      let ds := leadingDigits (c :: rest)
      if ds.isEmpty then none else some (digitsVal ds)

/-- The pagination- and age-related query parameters of getAllUsers, as
    received from the query string (absent parameters are `none`). -/
structure ListParams where
  page : Option String
  limit : Option String
  minAge : Option String
  maxAge : Option String
deriving DecidableEq

/-- The numeric values getAllUsers derives from those parameters; an
    inner `none` models NaN flowing out of parseInt, an outer `none` on
    the age bounds means the bound is not part of the query. -/
structure ListQueryNums where
  ageGte : Option (Option Int)
  ageLte : Option (Option Int)
  pageNumber : Option Int
  pageSize : Option Int
  skip : Option Int
deriving DecidableEq

/-- NaN-propagating binary arithmetic on parseInt results. -/
def jsNaN2 (f : Int → Int → Int) : Option Int → Option Int → Option Int
  | some a, some b => some (f a b)
  | _, _ => none

/-- JS truthiness of an optional string parameter: present and nonempty. -/
def optTruthy (o : Option String) : Bool :=
  o.getD "" != ""

/-- The parameter handling of getAllUsers (controllers/userController.js
    lines 321 to 372), translated branch for branch: destructuring
    defaults of 1 and 10, parseInt on page, limit, minAge and maxAge, and
    skip = (pageNumber - 1) * pageSize.  The source contains no branch
    that rejects a non-numeric value: every parameter flows through
    parseInt into the query, so the result type has no error case. -/
def buildListQueryNums (p : ListParams) : ListQueryNums :=
  let pageNumber := parseIntJs (p.page.getD "1")
  let pageSize := parseIntJs (p.limit.getD "10")
  { ageGte := if optTruthy p.minAge then some (parseIntJs (p.minAge.getD "")) else none
    ageLte := if optTruthy p.maxAge then some (parseIntJs (p.maxAge.getD "")) else none
    pageNumber := pageNumber
    pageSize := pageSize
    skip := jsNaN2 (fun a b => (a - 1) * b) pageNumber pageSize }

/-- Pagination metadata block of the getAllUsers response
    (controllers/userController.js lines 386 to 403). -/
structure PaginationMeta where
  currentPage : Nat
  pageSize : Nat
  totalUsers : Nat
  totalPages : Int
  hasNextPage : Bool
  hasPreviousPage : Bool
deriving DecidableEq

/-- Math.ceil of the quotient of two nonnegative integers, as JS computes
    totalPages. -/
def jsCeilDiv (t s : Nat) : Int :=
  Int.ceil ((t : Rat) / (s : Rat))

/-- The metadata computation of getAllUsers for numeric page and limit:
    totalPages = Math.ceil(totalUsers / pageSize), hasNextPage iff the
    current page is before the last, hasPreviousPage iff past the first. -/
def paginationMeta (pageNumber pageSize totalUsers : Nat) : PaginationMeta :=
  let totalPages := jsCeilDiv totalUsers pageSize
  { currentPage := pageNumber
    pageSize := pageSize
    totalUsers := totalUsers
    totalPages := totalPages
    hasNextPage := decide ((pageNumber : Int) < totalPages)
    hasPreviousPage := decide (1 < pageNumber) }

/-! ## Search endpoint (controllers/userController.js searchUsers,
    lines 788 to 862) -/

/-- An atom of the regular-expression fragment the search filter is
    verified over: a literal character or the dot wildcard (code 46). -/
inductive RegexAtom where
  | lit (c : Char)
  | dot
deriving DecidableEq

/-- A pattern piece: an atom taken once, or an atom under the star
    quantifier (code 42). -/
inductive RegexPiece where
  | once (a : RegexAtom)
  | star (a : RegexAtom)
deriving DecidableEq

/-- Whether an atom matches one character under the i flag: literal
    characters compare case-insensitively, the dot matches anything. -/
def atomMatches : RegexAtom → Char → Bool
  | RegexAtom.lit a, c => a.toLower == c.toLower
  | RegexAtom.dot, _ => true

/-- Backtracking acceptance of a piece list against a prefix of the
    text, ECMAScript-style: a star piece either moves on or consumes one
    matching character and stays.  The fuel only bounds the recursion
    depth: every step spends one unit and shrinks the combined length of
    pattern and text by at least one, so a call with fuel above that sum
    never reaches the fuel-exhausted clause. -/
def regexAcceptFuel : Nat → List RegexPiece → List Char → Bool
  | 0, _, _ => false
  | _ + 1, [], _ => true
  | _ + 1, RegexPiece.once _ :: _, [] => false
  | fuel + 1, RegexPiece.star _ :: ps, [] => regexAcceptFuel fuel ps []
  | fuel + 1, RegexPiece.once a :: ps, c :: cs =>
      atomMatches a c && regexAcceptFuel fuel ps cs
  | fuel + 1, RegexPiece.star a :: ps, c :: cs =>
      regexAcceptFuel fuel ps (c :: cs)
        || (atomMatches a c && regexAcceptFuel fuel (RegexPiece.star a :: ps) cs)

/-- Acceptance with the always-sufficient fuel bound. -/
def regexAccept (ps : List RegexPiece) (cs : List Char) : Bool :=
  regexAcceptFuel (ps.length + cs.length + 1) ps cs

/-- Parses a pattern string of the modelled fragment: the dot (code 46)
    becomes the wildcard atom, a following star (code 42) quantifies the
    preceding atom, every other character is a literal.  This covers
    every pattern the theorems below quantify over: metacharacter-free
    patterns parse as pure literals, and the counterexample pattern uses
    dot and star with their ECMAScript meaning. -/
def parseRegex : List Char → List RegexPiece
  | [] => []
  | [c] =>
    [RegexPiece.once (if c == Char.ofNat 46 then RegexAtom.dot else RegexAtom.lit c)]
  | c :: r :: rest2 =>
    let atom := if c == Char.ofNat 46 then RegexAtom.dot else RegexAtom.lit c
    if r == Char.ofNat 42 then RegexPiece.star atom :: parseRegex rest2
    else RegexPiece.once atom :: parseRegex (r :: rest2)

/-- The Mongo filter searchUsers builds: new RegExp(q) with the i option,
    tested unanchored against a string, i.e. the pattern may match at any
    position. -/
def regexTestCI (pat s : String) : Bool :=
  (List.range (s.data.length + 1)).any fun i =>
    regexAccept (parseRegex pat.data) (s.data.drop i)

/-- The ECMAScript regular-expression syntax characters
    . * + ? ( ) [ ] open-brace close-brace ^ $ | backslash,
    by character code. -/
def regexMetachars : List Char :=
  [Char.ofNat 46, Char.ofNat 42, Char.ofNat 43, Char.ofNat 63,
   Char.ofNat 40, Char.ofNat 41, Char.ofNat 91, Char.ofNat 93,
   Char.ofNat 123, Char.ofNat 125, Char.ofNat 94, Char.ofNat 36,
   Char.ofNat 124, Char.ofNat 92]

/-- A pattern that contains no regex syntax character and therefore
    matches purely literally. -/
def isLiteralPattern (pat : String) : Bool :=
  pat.data.all fun c => !(regexMetachars.contains c)

/-- Case-insensitive substring containment: the matching the
    specification describes for the hobby search scenario.  This is the
    specification-side predicate, to be compared with the regex filter
    the code actually applies; the two agree exactly on
    metacharacter-free patterns. -/
def ciContains (pat s : String) : Bool :=
  let p := (toLowerJs pat).data
  let t := (toLowerJs s).data
  (List.range (t.length + 1)).any fun i => (t.drop i).take p.length == p

/-- The switch of searchUsers that builds the query from the field
    selector: a predicate for the four valid selectors, none otherwise.
    Each branch applies the unescaped query as a case-insensitive
    regular expression, exactly as the source passes q into the Mongo
    regex operator. -/
def searchPred (field : String) (qs : String) : Option (User → Bool) :=
  if field == "name" then some fun u => regexTestCI qs u.name
  else if field == "email" then some fun u => regexTestCI qs u.email
  else if field == "hobby" then some fun u => u.hobbies.any fun s => regexTestCI qs s
  else if field == "all" then
    some fun u =>
      regexTestCI qs u.name || regexTestCI qs u.email
        || u.hobbies.any fun s => regexTestCI qs s
  else none

/-- searchUsers: reject when q is missing (or empty, which JS truthiness
    also treats as absent), reject an invalid field selector, otherwise
    filter the collection and cap the result at 50 records.  The two
    error branches return before User.find runs, which is why they do not
    inspect the collection. -/
def searchUsers (q field : Option String) (coll : List User) :
    Except String (List User) :=
  if q.getD "" == "" then Except.error "Search query (q) is required"
  else
    match searchPred (field.getD "all") (q.getD "") with
    | none => Except.error "Invalid search field"
    | some p => Except.ok ((coll.filter p).take 50)

/-! ## Create and update write paths (controllers/userController.js) -/

/-- HTTP outcome of the create handler. -/
inductive Resp where
  | created (u : User)
  | badRequest (m : String)
  | conflict (m : String)
deriving DecidableEq

/-- createUser (controllers/userController.js lines 490 to 597): missing
    name or email gives 400; a stored user whose email equals the
    lowercased requested email gives 409 before any save; otherwise the
    normalized document is validated and saved.  The returned list is the
    collection after the operation: both error branches return before
    newUser.save(), leaving it untouched. -/
def createUser (coll : List User) (name email : String) (age : Option Int)
    (hobbies : Option (List String)) : List User × Resp :=
  if name == "" || email == "" then
    (coll, Resp.badRequest "Name and email are required fields")
  else if coll.any (fun u => u.email == toLowerJs email) then
    (coll, Resp.conflict "User with this email already exists")
  else
    let userData : User :=
      { name := trimJs name
        email := trimJs (toLowerJs email)
        age := match age with
          | some a => if a == 0 then none else some a
          | none => none
        hobbies := (hobbies.getD []).map trimJs
        isActive := true
        profileScore := 0 }
    if validRecord userData then
      (coll ++ [save userData], Resp.created (save userData))
    else (coll, Resp.badRequest "Validation failed")

/-- Body of a PUT update request; absent fields are `none`. -/
structure UpdateData where
  name : Option String
  email : Option String
  age : Option Int
  hobbies : Option (List String)
  isActive : Option Bool
deriving DecidableEq

/-- The User.findByIdAndUpdate call of updateUser
    (controllers/userController.js lines 656 to 665): the supplied fields
    are written over the stored document (name trimmed, email lowercased
    and trimmed, hobbies trimmed entrywise, as lines 625 to 653 prepare
    them).  findByIdAndUpdate is a query-level update: the document
    pre-save middleware does not run, so profileScore keeps its stored
    value. -/
def findByIdAndUpdate (u : User) (d : UpdateData) : User :=
  { name := (d.name.map trimJs).getD u.name
    email := (d.email.map fun e => trimJs (toLowerJs e)).getD u.email
    age := match d.age with
      | some a => some a
      | none => u.age
    hobbies := (d.hobbies.map fun hs => hs.map trimJs).getD u.hobbies
    isActive := d.isActive.getD u.isActive
    profileScore := u.profileScore }

/-! ## Statistics endpoint (controllers/userController.js getUserStats) -/

/-- The minScore facet of the stats aggregation: the Mongo min group
    accumulator over every profileScore, with the controllers fallback of
    0 for an empty collection. -/
def statsMinScore (users : List User) : Int :=
  match users.map (fun u => u.profileScore) with
  | [] => 0
  | s :: ss => ss.foldl min s

/-! ## Helper lemmas -/

theorem save_hobbies (u : User) : (save u).hobbies = u.hobbies := rfl

theorem indexOfJs_ge (l : List String) (h : String) : -1 ≤ indexOfJs l h := by
  induction l with
  | nil => simp [indexOfJs]
  | cons a t ih =>
    simp only [indexOfJs]
    split
    · norm_num
    · split
      · norm_num
      · omega

theorem indexOfJs_not_mem (l : List String) (h : String) (hn : h ∉ l) :
    indexOfJs l h = -1 := by
  induction l with
  | nil => rfl
  | cons a t ih =>
    simp only [List.mem_cons, not_or] at hn
    have h1 : (a == h) = false := beq_eq_false_iff_ne.mpr fun he => hn.1 he.symm
    simp [indexOfJs, h1, ih hn.2]

theorem spliceOne_cons (a : String) (t : List String) (k : Nat) :
    spliceOne (a :: t) (k + 1) = a :: spliceOne t k := by
  simp [spliceOne, List.take_succ_cons, List.drop_succ_cons]

theorem spliceOne_erase (l : List String) (h : String) :
    (if indexOfJs l h > -1 then spliceOne l (indexOfJs l h).toNat else l)
      = l.erase h := by
  induction l with
  | nil => rfl
  | cons a t ih =>
    by_cases hah : (a == h) = true
    · have hi : indexOfJs (a :: t) h = 0 := by simp [indexOfJs, hah]
      rw [hi]
      simp [spliceOne, List.erase_cons, hah]
    · have hne : (a == h) = false := by simpa using hah
      by_cases hr : indexOfJs t h = -1
      · have hi : indexOfJs (a :: t) h = -1 := by simp [indexOfJs, hne, hr]
        rw [hi]
        have ht : t.erase h = t := by
          rw [← ih]
          simp [hr]
        simp [List.erase_cons, hne, ht]
      · have hge := indexOfJs_ge t h
        have hr0 : 0 ≤ indexOfJs t h := by
          rcases lt_or_eq_of_le hge with h1 | h1
          · omega
          · exact absurd h1.symm hr
        have hi : indexOfJs (a :: t) h = indexOfJs t h + 1 := by
          simp [indexOfJs, hne, hr]
        rw [hi]
        have htn : (indexOfJs t h + 1).toNat = (indexOfJs t h).toNat + 1 := by omega
        have hcond : indexOfJs t h + 1 > -1 := by omega
        rw [if_pos hcond, htn, spliceOne_cons]
        have ht : spliceOne t (indexOfJs t h).toNat = t.erase h := by
          rw [← ih]
          rw [if_pos (by omega)]
        rw [ht, List.erase_cons, if_neg (by simp [hne] : ¬(a == h) = true)]

/-! ## Claim C1: the profile score formula -/

/-- C1: for every user record whose age satisfies the schema bounds when
    present, the computed profile score equals the sum the specification
    states: 20 for a name of at least 2 characters, 30 for an email, 20
    for a present age, and 3 points per hobby capped at 30. -/
theorem profile_score_matches_spec (u : User) (h : validAgeB u.age = true) :
    computeScore u = claimedScore u := by
  unfold computeScore claimedScore
  cases hA : u.age with
  | none => simp [hA]
  | some a =>
    have h13 : 13 ≤ a := by
      rw [hA] at h
      simp only [validAgeB, Bool.and_eq_true, decide_eq_true_eq] at h
      exact h.1
    have ha : a ≠ 0 := by omega
    simp [hA, ha]

/-- C1 witness: the scenario record Ann Lee (valid name, valid email, an
    age, exactly 2 hobbies) scores 20 + 30 + 20 + 6 = 76. -/
theorem profile_score_matches_spec_witness :
    validAgeB (save annUser).age = true
    ∧ computeScore (save annUser) = claimedScore (save annUser)
    ∧ computeScore (save annUser) = 76 := by
  refine ⟨by decide, profile_score_matches_spec (save annUser) (by decide), by decide⟩

/-! ## Claim C2: score freshness after writes -/

/-- C2 failing run: after the PUT update path replaces the hobbies of a
    stored record through findByIdAndUpdate, the stored profileScore is
    still the pre-update 76, while the score computed from the records
    current fields is 70.  The pre-save middleware that keeps the score
    fresh does not run on findByIdAndUpdate, so the stored score is
    stale after this successful write. -/
theorem update_leaves_stale_score :
    (findByIdAndUpdate (save annUser)
      { name := none, email := none, age := none,
        hobbies := some [], isActive := none }).profileScore = 76
    ∧ computeScore (findByIdAndUpdate (save annUser)
      { name := none, email := none, age := none,
        hobbies := some [], isActive := none }) = 70 := by
  exact ⟨rfl, by decide⟩

/-! ## Claim C3: non-numeric list parameters -/

/-- C3 failing run: a list request with non-numeric minAge and page is
    not rejected; getAllUsers feeds both through parseInt, so the age
    filter receives a NaN bound (the inner none) and the page number is
    NaN, which then propagates into skip.  No branch of the source
    produces an error response for these inputs. -/
theorem nonnumeric_params_coerced_not_rejected :
    buildListQueryNums
      { page := some "abc", limit := none, minAge := some "xyz", maxAge := none }
      = { ageGte := some none, ageLte := none, pageNumber := none,
          pageSize := some 10, skip := none } := rfl

/-! ## Claim C8: idempotence of hobby-add -/

/-- C8: adding a hobby that is already present leaves the hobbies
    sequence unchanged (the source returns the document without pushing
    or saving). -/
theorem addHobby_idempotent_on_present (u : User) (h : String)
    (hmem : h ∈ u.hobbies) :
    (addHobby u h).hobbies = u.hobbies := by
  unfold addHobby
  simp [hmem]

/-- C8 witness: adding chess to the stored Ann record, which already
    lists chess, changes nothing. -/
theorem addHobby_idempotent_on_present_witness :
    "chess" ∈ (save annUser).hobbies
    ∧ (addHobby (save annUser) "chess").hobbies = (save annUser).hobbies := by
  exact ⟨by decide, addHobby_idempotent_on_present (save annUser) "chess" (by decide)⟩

/-! ## Claim C10: hobby removal -/

/-- C10: removing a hobby that occurs more than once removes exactly the
    first occurrence (the result is the erase of the first match, the
    count drops by one, and the hobby is still present), and removing an
    absent hobby returns the document unchanged with no error. -/
theorem removeHobby_first_occurrence (u : User) (h : String) :
    (1 < u.hobbies.count h →
      (removeHobby u h).hobbies = u.hobbies.erase h
      ∧ (removeHobby u h).hobbies.count h = u.hobbies.count h - 1
      ∧ h ∈ (removeHobby u h).hobbies)
    ∧ (h ∉ u.hobbies → removeHobby u h = u) := by
  have hhob : (removeHobby u h).hobbies = u.hobbies.erase h := by
    unfold removeHobby
    rw [← spliceOne_erase u.hobbies h]
    split
    · rw [save_hobbies]
    · rfl
  constructor
  · intro hcount
    refine ⟨hhob, ?_, ?_⟩
    · rw [hhob, List.count_erase_self]
    · rw [hhob]
      have : 0 < (u.hobbies.erase h).count h := by
        rw [List.count_erase_self]
        omega
      exact List.count_pos_iff.mp this
  · intro hnm
    unfold removeHobby
    rw [indexOfJs_not_mem u.hobbies h hnm]
    norm_num

/-- A record whose hobbies hold a duplicate, produced the way the claim
    describes: bulk replacement through the update path, which does not
    de-duplicate. -/
def dupUser : User :=
  findByIdAndUpdate (save annUser)
    { name := none, email := none, age := none,
      hobbies := some ["chess", "chess", "go"], isActive := none }

/-- C10 witness: on the duplicated record, removing chess erases exactly
    the first occurrence and drops the count from 2 to 1; removing an
    absent hobby returns the record unchanged. -/
theorem removeHobby_first_occurrence_witness :
    1 < dupUser.hobbies.count "chess"
    ∧ (removeHobby dupUser "chess").hobbies = dupUser.hobbies.erase "chess"
    ∧ (removeHobby dupUser "chess").hobbies.count "chess"
        = dupUser.hobbies.count "chess" - 1
    ∧ "surfing" ∉ dupUser.hobbies
    ∧ removeHobby dupUser "surfing" = dupUser := by
  refine ⟨by decide,
    ((removeHobby_first_occurrence dupUser "chess").1 (by decide)).1,
    ((removeHobby_first_occurrence dupUser "chess").1 (by decide)).2.1,
    by decide,
    (removeHobby_first_occurrence dupUser "surfing").2 (by decide)⟩

/-! ## Claim C4: pagination metadata -/

/-- C4: for numeric page and limit both at least 1, the metadata block of
    the list response satisfies the specification: totalPages is the
    ceiling of totalUsers over pageSize (spelled both as the real ceiling
    and as the closed natural-number form), hasNextPage holds exactly
    when the current page is below totalPages, and hasPreviousPage holds
    exactly when the current page is past 1. -/
theorem pagination_metadata_correct (p s t : Nat) (hp : 1 ≤ p) (hs : 1 ≤ s) :
    (paginationMeta p s t).totalPages = Int.ceil ((t : Rat) / (s : Rat))
    ∧ (paginationMeta p s t).totalPages = (((t + s - 1) / s : Nat) : Int)
    ∧ ((paginationMeta p s t).hasNextPage = true
        ↔ ((paginationMeta p s t).currentPage : Int) < (paginationMeta p s t).totalPages)
    ∧ ((paginationMeta p s t).hasPreviousPage = true
        ↔ 1 < (paginationMeta p s t).currentPage) := by
  have hceil : jsCeilDiv t s = (((t + s - 1) / s : Nat) : Int) := by
    unfold jsCeilDiv
    have hs0 : 0 < s := hs
    have hspos : (0 : Rat) < (s : Rat) := by exact_mod_cast hs0
    have h1 : s * ((t + s - 1) / s) + (t + s - 1) % s = t + s - 1 :=
      Nat.div_add_mod _ _
    have h2 : (t + s - 1) % s < s := Nat.mod_lt _ hs0
    set q := (t + s - 1) / s with hq
    have hq1 : t ≤ s * q := by omega
    have hq3 : s * q < t + s := by omega
    rw [Int.ceil_eq_iff]
    constructor
    · rw [sub_lt_iff_lt_add]
      have he : ((t : Rat) / (s : Rat) + 1) = ((t : Rat) + (s : Rat)) / (s : Rat) := by
        field_simp
      rw [he, lt_div_iff₀ hspos]
      have hc : ((s * q : Nat) : Rat) < ((t + s : Nat) : Rat) := by exact_mod_cast hq3
      push_cast at hc ⊢
      linarith
    · rw [div_le_iff₀ hspos]
      have hc : ((t : Nat) : Rat) ≤ ((s * q : Nat) : Rat) := by exact_mod_cast hq1
      push_cast at hc ⊢
      linarith
  refine ⟨rfl, hceil, ?_, ?_⟩
  · simp [paginationMeta]
  · simp [paginationMeta]

/-- C4 witness: page 2, limit 10, 21 users: totalPages is 3, there is a
    next page and a previous page. -/
theorem pagination_metadata_correct_witness :
    (1 ≤ 2 ∧ 1 ≤ 10)
    ∧ (paginationMeta 2 10 21).totalPages = (((21 + 10 - 1) / 10 : Nat) : Int)
    ∧ ((paginationMeta 2 10 21).hasNextPage = true
        ↔ ((paginationMeta 2 10 21).currentPage : Int) < (paginationMeta 2 10 21).totalPages)
    ∧ ((paginationMeta 2 10 21).hasPreviousPage = true
        ↔ 1 < (paginationMeta 2 10 21).currentPage) := by
  refine ⟨⟨by decide, by decide⟩,
    (pagination_metadata_correct 2 10 21 (by decide) (by decide)).2.1,
    (pagination_metadata_correct 2 10 21 (by decide) (by decide)).2.2.1,
    (pagination_metadata_correct 2 10 21 (by decide) (by decide)).2.2.2⟩

/-! ## Claim C5: search request validation -/

/-- C5: a search without q is rejected with an error, and a search whose
    field selector is none of name, email, hobby, all is rejected with an
    error; in both cases the result does not depend on the stored
    collection, because the handler returns before the collection is
    queried. -/
theorem search_rejects_missing_q_or_invalid_field
    (q field : Option String) (c1 c2 : List User) :
    (q = none →
      searchUsers q field c1 = Except.error "Search query (q) is required"
      ∧ searchUsers q field c1 = searchUsers q field c2)
    ∧ (∀ f, field = some f → f ∉ (["name", "email", "hobby", "all"] : List String) →
      (∃ m, searchUsers q field c1 = Except.error m)
      ∧ searchUsers q field c1 = searchUsers q field c2) := by
  constructor
  · rintro rfl
    exact ⟨rfl, rfl⟩
  · rintro f rfl hf
    simp only [List.mem_cons, List.mem_singleton, not_or] at hf
    obtain ⟨h1, h2, h3, h4⟩ := hf
    have hnone : ∀ qs, searchPred f qs = none := by
      intro qs
      simp [searchPred, h1, h2, h3, h4]
    by_cases hq : (q.getD "" == "") = true
    · constructor
      · exact ⟨"Search query (q) is required", by simp [searchUsers, hq]⟩
      · simp [searchUsers, hq]
    · constructor
      · exact ⟨"Invalid search field", by simp [searchUsers, hq, hnone]⟩
      · simp [searchUsers, hq, hnone]

/-- C5 witness: a search with no q is rejected, and a search with the
    unsupported selector is rejected the same way on two different
    collections, so the collection was not consulted. -/
theorem search_rejects_witness :
    searchUsers none (some "hobby") [save annUser]
      = Except.error "Search query (q) is required"
    ∧ "bogus" ∉ (["name", "email", "hobby", "all"] : List String)
    ∧ (∃ m, searchUsers (some "chess") (some "bogus") [save annUser] = Except.error m)
    ∧ searchUsers (some "chess") (some "bogus") [save annUser]
        = searchUsers (some "chess") (some "bogus") [] := by
  refine ⟨((search_rejects_missing_q_or_invalid_field none (some "hobby")
      [save annUser] []).1 rfl).1, by decide, ?_, ?_⟩
  · exact ((search_rejects_missing_q_or_invalid_field (some "chess") (some "bogus")
      [save annUser] []).2 "bogus" rfl (by decide)).1
  · exact ((search_rejects_missing_q_or_invalid_field (some "chess") (some "bogus")
      [save annUser] []).2 "bogus" rfl (by decide)).2

/-! ## Claim C6: hobby search matching and the 50-record cap -/

theorem charBeq_comm (x y : Char) : (x == y) = (y == x) := by
  by_cases h : x = y
  · rw [h]
  · rw [beq_eq_false_iff_ne.mpr h, beq_eq_false_iff_ne.mpr fun he => h he.symm]

/-- On a pattern of pure literals, acceptance is case-folded equality
    with the text prefix of the same length. -/
theorem regexAcceptFuel_literal (p : List Char) :
    ∀ (cs : List Char) (fuel : Nat), p.length + cs.length < fuel →
    regexAcceptFuel fuel (p.map fun c => RegexPiece.once (RegexAtom.lit c)) cs
      = ((cs.take p.length).map Char.toLower == p.map Char.toLower) := by
  induction p with
  | nil =>
    intro cs fuel hf
    match fuel, hf with
    | fuel + 1, _ => simp [regexAcceptFuel]
  | cons a p ih =>
    intro cs fuel hf
    match fuel, hf with
    | fuel + 1, hf =>
      cases cs with
      | nil => simp [regexAcceptFuel]
      | cons c cs =>
        have hlt : p.length + cs.length < fuel := by
          simp only [List.length_cons] at hf
          omega
        simp only [List.map_cons, regexAcceptFuel, atomMatches, ih cs fuel hlt,
          List.length_cons, List.take_succ_cons, List.cons_beq_cons]
        rw [charBeq_comm]

/-- A metacharacter-free pattern parses to pure literal pieces: the
    parser can take neither the dot branch nor the star branch. -/
theorem parseRegex_literal (cs : List Char)
    (h : (cs.all fun c => !(regexMetachars.contains c)) = true) :
    parseRegex cs = cs.map fun c => RegexPiece.once (RegexAtom.lit c) := by
  induction cs with
  | nil => rfl
  | cons c rest ih =>
    simp only [List.all_cons, Bool.and_eq_true] at h
    have hc : (c == Char.ofNat 46) = false := by
      apply beq_eq_false_iff_ne.mpr
      intro he
      rw [he] at h
      exact absurd h.1 (by decide)
    cases rest with
    | nil => simp [parseRegex, hc]
    | cons r rest2 =>
      have hr : (r == Char.ofNat 42) = false := by
        apply beq_eq_false_iff_ne.mpr
        intro he
        have h2 := h.2
        rw [List.all_cons, he] at h2
        simp only [Bool.and_eq_true] at h2
        exact absurd h2.1 (by decide)
      simp [parseRegex, hc, hr, ih h.2]

/-- On metacharacter-free queries the regex filter the code applies is
    exactly the case-insensitive substring containment the specification
    describes. -/
theorem regexTestCI_literal (pat s : String) (h : isLiteralPattern pat = true) :
    regexTestCI pat s = ciContains pat s := by
  unfold regexTestCI ciContains
  rw [parseRegex_literal pat.data h]
  simp only [toLowerJs, List.length_map]
  apply congrArg
  funext i
  rw [regexAccept, regexAcceptFuel_literal pat.data (s.data.drop i) _
    (by simp only [List.length_map]; omega)]
  rw [List.map_take, List.map_drop]

/-- A stored record whose hobby zebra defeats the substring reading of
    the search filter for the pattern z dot star a. -/
def zebraUser : User :=
  save { name := "Zed Ali", email := "zed@example.com", age := some 30,
         hobbies := ["zebra"], isActive := true, profileScore := 0 }

/-- C6 counterexample: the hobby search applies the query as an
    unescaped regular expression, so the pattern z.*a returns the zebra
    user (dot-star matches ebr) although none of that records hobbies
    contains z.*a as a case-insensitive substring.  The claim as stated,
    quantified over every query string, is therefore false of the code. -/
theorem search_hobby_regex_counterexample :
    searchUsers (some "z.*a") (some "hobby") [zebraUser] = Except.ok [zebraUser]
    ∧ ((zebraUser.hobbies.any fun s => ciContains "z.*a" s) = false) := by
  exact ⟨rfl, rfl⟩

/-- C6 amended: any successful search returns at most 50 records, and
    when the field selector is hobby and the query contains no regex
    metacharacter, every returned user has some hobby containing the
    query as a case-insensitive substring. -/
theorem search_capped_and_literal_hobby_substring
    (q field : Option String) (coll res : List User)
    (hok : searchUsers q field coll = Except.ok res) :
    res.length ≤ 50
    ∧ (∀ qs, q = some qs → isLiteralPattern qs = true → field = some "hobby" →
        ∀ u ∈ res, u.hobbies.any (fun s => ciContains qs s) = true) := by
  unfold searchUsers at hok
  by_cases hq : (q.getD "" == "") = true
  · rw [if_pos hq] at hok
    exact absurd hok (by simp)
  · rw [if_neg hq] at hok
    cases hp : searchPred (field.getD "all") (q.getD "") with
    | none =>
      rw [hp] at hok
      exact absurd hok (by simp)
    | some p =>
      rw [hp] at hok
      have hres : res = (coll.filter p).take 50 := by
        simpa using hok.symm
      constructor
      · rw [hres]
        exact List.length_take_le 50 _
      · rintro qs rfl hlit rfl
        have hpred : searchPred ((some "hobby").getD "all") ((some qs).getD "")
            = some (fun u => u.hobbies.any fun s => regexTestCI qs s) := rfl
        rw [hpred] at hp
        have hpe : p = fun u => u.hobbies.any fun s => regexTestCI qs s := by
          injection hp with h
          exact h.symm
        intro u hu
        rw [hres] at hu
        have hm : u ∈ coll.filter p := List.mem_of_mem_take hu
        have hfu : p u = true := List.of_mem_filter hm
        have hfun : (fun s => regexTestCI qs s) = fun s => ciContains qs s :=
          funext fun s => regexTestCI_literal qs s hlit
        rw [hpe, hfun] at hfu
        exact hfu

/-- C6 witness: searching the literal query chess over hobbies on a
    one-record collection returns that record, within the cap, and its
    hobbies contain a case-insensitive substring match. -/
theorem search_capped_and_literal_hobby_substring_witness :
    searchUsers (some "chess") (some "hobby") [save annUser]
      = Except.ok [save annUser]
    ∧ isLiteralPattern "chess" = true
    ∧ ([save annUser] : List User).length ≤ 50
    ∧ (save annUser).hobbies.any (fun s => ciContains "chess" s) = true := by
  refine ⟨rfl, by decide, ?_, ?_⟩
  · exact (search_capped_and_literal_hobby_substring (some "chess") (some "hobby")
      [save annUser] [save annUser] rfl).1
  · exact (search_capped_and_literal_hobby_substring (some "chess") (some "hobby")
      [save annUser] [save annUser] rfl).2 "chess" rfl (by decide) rfl
      (save annUser) (by simp)

/-! ## Claim C7: case-insensitive email uniqueness on create -/

/-- C7: when the collection holds a user whose stored email (already
    lowercase, as every write path stores it) equals the lowercased
    requested email, creating a user with an email differing only in
    letter case fails with the conflict response and returns the
    collection unchanged. -/
theorem create_conflicts_on_case_insensitive_duplicate
    (coll : List User) (v : User) (name email : String) (age : Option Int)
    (hobbies : Option (List String)) (hmem : v ∈ coll)
    (hlow : toLowerJs v.email = v.email)
    (hcase : toLowerJs email = toLowerJs v.email)
    (hname : name ≠ "") (hemail : email ≠ "") :
    createUser coll name email age hobbies
      = (coll, Resp.conflict "User with this email already exists") := by
  unfold createUser
  have h1 : ¬((name == "" || email == "") = true) := by
    simp [hname, hemail]
  rw [if_neg h1]
  have h2 : (coll.any fun u => u.email == toLowerJs email) = true := by
    rw [List.any_eq_true]
    refine ⟨v, hmem, ?_⟩
    have he : toLowerJs email = v.email := by rw [hcase, hlow]
    rw [he]
    simp
  rw [if_pos h2]

/-- C7 witness: with Ann stored as ann at example dot com, creating Bob
    with the same address in upper case yields the conflict response and
    the one-record collection is unchanged. -/
theorem create_conflicts_witness :
    save annUser ∈ [save annUser]
    ∧ toLowerJs (save annUser).email = (save annUser).email
    ∧ toLowerJs "ANN@EXAMPLE.COM" = toLowerJs (save annUser).email
    ∧ createUser [save annUser] "Bob" "ANN@EXAMPLE.COM" none none
        = ([save annUser], Resp.conflict "User with this email already exists") := by
  refine ⟨by simp, by decide, by decide, ?_⟩
  exact create_conflicts_on_case_insensitive_duplicate [save annUser] (save annUser)
    "Bob" "ANN@EXAMPLE.COM" none none (by simp) (by decide) (by decide)
    (by decide) (by decide)

/-! ## Claim C9: validated records score at least 50 -/

theorem validName_two_le_length (s : String) (h : validName s = true) :
    2 ≤ s.length := by
  simp only [validName, Bool.and_eq_true, decide_eq_true_eq] at h
  exact h.1.1

theorem validEmailFormat_ne_empty (s : String) (h : validEmailFormat s = true) :
    s ≠ "" := by
  intro he
  subst he
  exact absurd h (by decide)

theorem score_ge_50 (u : User) (h : validRecord u = true) :
    50 ≤ computeScore u := by
  simp only [validRecord, Bool.and_eq_true] at h
  have hlen : 2 ≤ u.name.length := validName_two_le_length _ h.1.1.1.1
  have hne : u.name ≠ "" := by
    intro he
    rw [he] at hlen
    exact absurd hlen (by decide)
  have hef : validEmailFormat u.email = true := by
    have := h.1.1.1.2
    simp only [validEmail, Bool.and_eq_true] at this
    exact this.1
  have hee : u.email ≠ "" := validEmailFormat_ne_empty _ hef
  unfold computeScore
  rw [if_pos ⟨hne, hlen⟩, if_pos hee]
  have h30 : (0 : Int) ≤ min (3 * (u.hobbies.length : Int)) 30 :=
    le_min (by positivity) (by norm_num)
  split
  · linarith
  · linarith

theorem foldl_min_lower (b : Int) (l : List Int) :
    ∀ a : Int, b ≤ a → (∀ x ∈ l, b ≤ x) → b ≤ l.foldl min a := by
  induction l with
  | nil =>
    intro a ha _
    simpa using ha
  | cons x t ih =>
    intro a ha hx
    simp only [List.foldl_cons]
    exact ih (min a x) (le_min ha (hx x (by simp))) fun y hy => hx y (by simp [hy])

/-- C9: every record passing schema validation scores at least 50 (name
    and email are required and contribute 20 + 30), and consequently, on
    any non-empty collection whose records are validated and carry fresh
    scores, the minScore statistic is at least 50. -/
theorem validated_min_score (users : List User) :
    (∀ u ∈ users, validRecord u = true → 50 ≤ computeScore u)
    ∧ (users ≠ [] →
        (∀ u ∈ users, validRecord u = true ∧ u.profileScore = computeScore u) →
        50 ≤ statsMinScore users) := by
  constructor
  · exact fun u _ hv => score_ge_50 u hv
  · intro hne hall
    cases users with
    | nil => exact absurd rfl hne
    | cons v rest =>
      show 50 ≤ (rest.map fun u => u.profileScore).foldl min v.profileScore
      apply foldl_min_lower
      · have hv := hall v (by simp)
        rw [hv.2]
        exact score_ge_50 v hv.1
      · intro x hx
        obtain ⟨u, hu, hux⟩ := List.mem_map.mp hx
        have hvu := hall u (by simp [hu])
        rw [← hux, hvu.2]
        exact score_ge_50 u hvu.1

/-- C9 witness: on the singleton collection holding the stored Ann
    record, which is valid and carries its computed score, the minScore
    statistic is at least 50. -/
theorem validated_min_score_witness :
    ([save annUser] : List User) ≠ []
    ∧ validRecord (save annUser) = true
    ∧ (save annUser).profileScore = computeScore (save annUser)
    ∧ 50 ≤ statsMinScore [save annUser] := by
  refine ⟨by simp, by decide, by decide, ?_⟩
  refine (validated_min_score [save annUser]).2 (by simp) ?_
  intro u hu
  simp only [List.mem_singleton] at hu
  subst hu
  exact ⟨by decide, by decide⟩
